import Mathlib

/-!
Shallow embedding of the ore-hq-server round coordinator (src/src/main.rs).

The coordinator keeps a socket map (`AppState.sockets`), a ready set
(`ready_clients`), a best-solution cell (`BestHash`), a nonce cursor and the
current proof.  The definitions below translate, function by function, the
parts of `main.rs` the claims are about: roster transitions (connect,
Ready events, dispatch, the ping sweep, receive-loop exit), the frame
decoder `process_message`, the best-solution update of
`client_message_handler_system`, the dispatch-loop decision and nonce-range
allocation, the assignment-frame encoding, and the submission loop's
success and exhaustion branches.

The drillx hashing library is external to the repository; solution
validity and difficulty are therefore parameters (`validFn`, `diffFn`) of
the definitions that use them, exactly as the source calls the opaque
`Solution::is_valid` and `difficulty()`.
-/

namespace OreHq

/-! ### Roster: socket map and ready set (main.rs lines 117-120, 370-399, 476-491, 192-199, 525-549)

Only membership of an address matters to the claims; the sink value held in
the map is an opaque channel handle.  Addresses are modelled as `Nat`. -/

/-- State of the connection registry and ready set: `sockets` is the key set
of `AppState.sockets`, `ready` the contents of `ready_clients`. -/
structure RosterState where
  sockets : List Nat
  ready : List Nat
deriving DecidableEq, Repr

/-- The roster events of the server: `connect` is the sink registration in
`handle_socket`; `readyMsg` the `ClientMessage::Ready` arm of
`client_message_handler_system`; `dispatch a sendOk` the per-client body of
the dispatch loop, with `sendOk` the outcome of the assignment-frame send;
`pingSweep failed` one sweep of `ping_check_system` where `failed` are the
addresses whose ping send errored; `disconnect` the exit of the receive
loop in `handle_socket`. -/
inductive REvent where
  | connect (a : Nat)
  | readyMsg (a : Nat)
  | dispatch (a : Nat) (sendOk : Bool)
  | pingSweep (failed : List Nat)
  | disconnect (a : Nat)
deriving DecidableEq, Repr

/-- One roster transition, translated from main.rs:
connect inserts the sink only if the address has no active connection
(lines 381-388); a Ready message inserts into the ready set only when the
address is attached (lines 479-491); dispatch erases the client from the
ready set whenever a sink is attached, the send result being discarded with
a wildcard let (lines 192-199); the ping sweep removes the failed addresses
from the socket map and touches nothing else (lines 530-546); receive-loop
exit only logs (lines 390-398). -/
def stepRoster (st : RosterState) : REvent → RosterState
  | .connect a =>
      if a ∈ st.sockets then st
      else { st with sockets := a :: st.sockets }
  | .readyMsg a =>
      if a ∈ st.sockets then
        { st with ready := if a ∈ st.ready then st.ready else a :: st.ready }
      else st
  | .dispatch a _sendOk =>
      if a ∈ st.sockets then { st with ready := st.ready.erase a }
      else st
  | .pingSweep failed =>
      { st with sockets := st.sockets.filter (fun x => decide (x ∉ failed)) }
  | .disconnect _a => st

/-- Run a sequence of roster events. -/
def runRoster (st : RosterState) : List REvent → RosterState
  | [] => st
  | e :: es => runRoster (stepRoster st e) es

/-- The roster at boot: no sockets, empty ready set (main.rs lines 117-120). -/
def bootRoster : RosterState := { sockets := [], ready := [] }

/-! ### The frame decoder `process_message` (main.rs lines 401-465) -/

/-- Semantic events forwarded into the event bus (`ClientMessage`).  A
solution is carried as its raw 16 digest bytes and 8 nonce bytes. -/
inductive CMsg where
  | ready (who : Nat)
  | mining (who : Nat)
  | bestSolution (who : Nat) (digest : List Nat) (nonce : List Nat)
deriving DecidableEq, Repr

/-- Incoming WebSocket messages as matched by `process_message`. -/
inductive WsMsg where
  | text (s : String)
  | binary (d : List Nat)
  | close (hasFrame : Bool)
  | ping (v : List Nat)
  | pong (v : List Nat)
deriving DecidableEq, Repr

/-- The control-flow result of `process_message`. -/
inductive Flow where
  | cont
  | brk
deriving DecidableEq, Repr

/-- Reading `len` consecutive bytes of `d` starting at `start`, as done by
the index loops `d[i + b_index]`; `none` models the out-of-bounds panic of
the Rust slice index. -/
def bytesAt (d : List Nat) (start len : Nat) : Option (List Nat) :=
  if start + len ≤ d.length then some ((d.drop start).take len) else none

/-- Translation of `process_message`.  `Except.error` models a panic of the
receive task (an out-of-bounds slice index); `Except.ok` carries the
control flow returned and the client messages sent on the channel.  The
source reads `d[0]` unconditionally and, for tag 2, reads `d[1..17]` and
`d[17..25]` with no length check. -/
def process_message (who : Nat) : WsMsg → Except String (Flow × List CMsg)
  | .text _t => .ok (.cont, [])
  | .binary d =>
      match d.get? 0 with
      | none => .error "index out of bounds"
      | some message_type =>
        if message_type = 0 then .ok (.cont, [.ready who])
        else if message_type = 1 then .ok (.cont, [.mining who])
        else if message_type = 2 then
          match bytesAt d 1 16, bytesAt d 17 8 with
          | some digest, some nonce =>
              .ok (.cont, [.bestSolution who digest nonce])
          | _, _ => .error "index out of bounds"
        else .ok (.cont, [])
  | .close _c => .ok (.brk, [])
  | .pong _v => .ok (.cont, [])
  | .ping _v => .ok (.cont, [])

/-! ### Best-solution cell and its update (main.rs lines 26-29, 108-111, 496-520) -/

/-- The `BestHash` cell: optional solution and its difficulty. -/
structure BestHash (S : Type) where
  solution : Option S
  difficulty : Nat
deriving DecidableEq, Repr

/-- The cell at boot and after either submission-loop reset:
solution `None`, difficulty `0` (main.rs lines 108-111, 283-289, 300-306). -/
def emptyBest (S : Type) : BestHash S := { solution := none, difficulty := 0 }

/-- The `ClientMessage::BestSolution` arm of `client_message_handler_system`
(main.rs lines 496-520): snapshot the challenge; if the solution is valid
for it, compute its difficulty; if that exceeds 3 and exceeds the stored
difficulty, store the new difficulty and solution; otherwise leave the cell
unchanged.  `validFn` and `diffFn` stand for the external drillx
`Solution::is_valid` and `difficulty()`. -/
def applyBestSolution {S C : Type} (validFn : S → C → Bool) (diffFn : S → Nat)
    (challenge : C) (sol : S) (b : BestHash S) : BestHash S :=
  if validFn sol challenge then
    let diff := diffFn sol
    if diff > 3 then
      if diff > b.difficulty then { solution := some sol, difficulty := diff }
      else b
    else b
  else b

/-- Reachable contents of the `BestHash` cell: the boot value, the result of
applying a `BestSolution` event, and the value after either reset of the
submission loop. -/
inductive BReach {S C : Type} (validFn : S → C → Bool) (diffFn : S → Nat) :
    BestHash S → Prop where
  | boot : BReach validFn diffFn (emptyBest S)
  | update (challenge : C) (sol : S) (b : BestHash S) :
      BReach validFn diffFn b →
      BReach validFn diffFn (applyBestSolution validFn diffFn challenge sol b)
  | reset (b : BestHash S) :
      BReach validFn diffFn b → BReach validFn diffFn (emptyBest S)

/-! ### Dispatch-loop decision and nonce allocation (main.rs lines 138-206) -/

/-- The decision at the top of each dispatch iteration (main.rs lines
152-164): `should_mine` starts true; when the computed cutoff is non
positive it is set to false exactly when a best solution exists, and the
cutoff used is forced to 0; otherwise the computed cutoff is kept.  Returns
`(should_mine, cutoff used)`. -/
def dispatchDecision (cutoff : Int) (hasSolution : Bool) : Bool × Int :=
  if cutoff ≤ 0 then
    (if hasSolution then false else true, 0)
  else (true, cutoff)

/-- The per-dispatch nonce-range size (main.rs line 174): the maximum
hashes possible in 60 s for a single client. -/
def CHUNK : Nat := 2000000

/-- One allocation from the shared cursor (main.rs lines 170-177):
`start` is the cursor, the cursor advances by `CHUNK` as a wrapping `u64`
addition, `end` is the new cursor.  Returns `((start, end), new cursor)`. -/
def allocate (cursor : Nat) : (Nat × Nat) × Nat :=
  let start := cursor
  let cursor2 := (cursor + CHUNK) % 2 ^ 64
  ((start, cursor2), cursor2)

/-- The ranges emitted by `n` successive allocations starting from a given
cursor value, in order. -/
def allocSeq (cursor : Nat) : Nat → List (Nat × Nat)
  | 0 => []
  | n + 1 =>
      let r := allocate cursor
      r.1 :: allocSeq r.2 n

/-! ### Assignment-frame encoding (main.rs lines 184-189) -/

/-- The `w` little-endian base-256 digits of `n`. -/
def leBytes (w n : Nat) : List Nat :=
  (List.range w).map (fun i => n / 256 ^ i % 256)

/-- `u64::to_le_bytes`. -/
def u64leBytes (n : Nat) : List Nat := leBytes 8 (n % 2 ^ 64)

/-- `i64::to_le_bytes`: the little-endian bytes of the value's two's
complement representation. -/
def i64leBytes (n : Int) : List Nat := leBytes 8 (n % 2 ^ 64).toNat

/-- The 57-byte `bin_data` assignment frame built by the dispatch loop
(main.rs lines 184-189): byte 0 is the tag `0u8`, bytes 1..33 the
challenge, bytes 33..41 the cutoff as `i64` little endian, bytes 41..49 the
range start and bytes 49..57 the range end as `u64` little endian. -/
def assignmentFrame (challenge : List Nat) (cutoff : Int)
    (nonceStart nonceEnd : Nat) : List Nat :=
  [0] ++ challenge ++ i64leBytes cutoff ++ u64leBytes nonceStart
    ++ u64leBytes nonceEnd

/-! ### Submission loop: success and exhaustion branches (main.rs lines 213-321) -/

/-- The on-chain `Proof` as far as the coordinator consumes it: the 32-byte
challenge and the balance.  Replacement is decided by full inequality of
the loaded account (`proof != loaded_proof`), which the field equality
models. -/
structure ProofSt where
  challenge : List Nat
  balance : Nat
deriving DecidableEq, Repr

/-- The shared round state touched by the submission loop: the proof cell,
the nonce cursor and the best-solution cell. -/
structure RoundState (S : Type) where
  proof : ProofSt
  nonce : Nat
  best : BestHash S
deriving DecidableEq, Repr

/-- The post-success polling loop (main.rs lines 258-277): repeatedly call
`get_proof`; on an RPC failure sleep and retry; on a loaded proof equal to
the submitted-against one keep polling; on a differing loaded proof stop
with it.  The list holds the successive RPC outcomes; `none` as a result
means the poll never completed within them. -/
def pollNewProof (current : ProofSt) : List (Option ProofSt) → Option ProofSt
  | [] => none
  | r :: rest =>
      match r with
      | some loaded => if loaded ≠ current then some loaded else pollNewProof current rest
      | none => pollNewProof current rest

/-- The `for i in 0..3` send-and-confirm retry loop (main.rs lines
249-311), given the success of each attempt and the RPC outcomes available
to the post-success poll.  On a successful attempt: poll for a new proof,
then replace the proof, reset the nonce cursor to 0 and clear the best
hash, and break.  On a failed attempt with `i >= 2`: reset the nonce
cursor to 0 and clear the best hash, leaving the proof untouched, and
break.  `none` models an execution that did not complete (the poll ran out
of outcomes, or fewer attempt outcomes than the loop consumes were
supplied). -/
def submitAttempts {S : Type} (st : RoundState S) (poll : List (Option ProofSt)) :
    Nat → List Bool → Option (RoundState S)
  | _, [] => none
  | i, ok :: rest =>
      if ok then
        match pollNewProof st.proof poll with
        | some loaded => some { proof := loaded, nonce := 0, best := emptyBest S }
        | none => none
      else
        if 2 ≤ i then some { proof := st.proof, nonce := 0, best := emptyBest S }
        else submitAttempts st poll (i + 1) rest

/-- One pass of the submission body over its three attempts. -/
def submitRound {S : Type} (st : RoundState S) (attempts : List Bool)
    (poll : List (Option ProofSt)) : Option (RoundState S) :=
  submitAttempts st poll 0 attempts

/-! ## Helper lemmas -/

theorem allocSeq_closed (n c : Nat) (h : c + n * CHUNK < 2 ^ 64) :
    allocSeq c n = (List.range n).map (fun i => (c + i * CHUNK, c + (i + 1) * CHUNK)) := by
  induction n generalizing c with
  | zero => rfl
  | succ n ih =>
      have hexp : (n + 1) * CHUNK = n * CHUNK + CHUNK := Nat.succ_mul n CHUNK
      rw [hexp] at h
      have hc : c + CHUNK < 2 ^ 64 := by omega
      have hmod : (c + CHUNK) % 2 ^ 64 = c + CHUNK := Nat.mod_eq_of_lt hc
      have ih2 := ih (c + CHUNK) (by omega)
      have hfun : (fun i => (c + CHUNK + i * CHUNK, c + CHUNK + (i + 1) * CHUNK)) =
          (fun i => (c + i * CHUNK, c + (i + 1) * CHUNK)) ∘ Nat.succ := by
        funext i
        simp only [Function.comp_apply, Nat.succ_eq_add_one, Prod.mk.injEq]
        constructor <;> ring
      show (c, (c + CHUNK) % 2 ^ 64) :: allocSeq ((c + CHUNK) % 2 ^ 64) n = _
      rw [hmod, ih2, hfun, List.range_succ_eq_map, List.map_cons, List.map_map]
      simp

theorem allocSeq_length (n c : Nat) : (allocSeq c n).length = n := by
  induction n generalizing c with
  | zero => rfl
  | succ n ih => simp [allocSeq, ih]

theorem allocSeq_get (c n i : Nat) (ri : Nat × Nat) (h : c + n * CHUNK < 2 ^ 64)
    (hget : (allocSeq c n).get? i = some ri) :
    i < n ∧ ri = (c + i * CHUNK, c + (i + 1) * CHUNK) := by
  have hi : i < n := by
    by_contra hni
    rw [show (allocSeq c n).get? i = none from
      List.get?_eq_none.mpr (by rw [allocSeq_length]; omega)] at hget
    exact Option.noConfusion hget
  refine ⟨hi, ?_⟩
  rw [allocSeq_closed n c h, List.get?_map, List.get?_range hi] at hget
  exact (Option.some.injEq _ _ ▸ hget).symm

theorem pollNewProof_ne (current : ProofSt) (poll : List (Option ProofSt)) (p : ProofSt)
    (h : pollNewProof current poll = some p) : p ≠ current := by
  induction poll with
  | nil => exact absurd h (by simp [pollNewProof])
  | cons r rest ih =>
      cases r with
      | none => exact ih (by simpa [pollNewProof] using h)
      | some loaded =>
          by_cases hl : loaded ≠ current
          · have : loaded = p := by simpa [pollNewProof, hl] using h
            exact this ▸ hl
          · exact ih (by simpa [pollNewProof, hl] using h)

theorem leBytes_length (w n : Nat) : (leBytes w n).length = w := by
  simp [leBytes]

/-! ## Theorems -/

/-- C2: process_message is claimed total on binary frames of any length,
returning Continue with no panic.  The code reads `d[0]` unconditionally
and, for tag 2, bytes 1..25 with no length check: an empty frame, a bare
tag-2 frame, and a 24-byte tag-2 frame all hit an out-of-bounds index and
panic the receive task, while a well-formed unknown-tag frame is indeed
logged and dropped with Continue.  This evaluates the decoder at those
failing inputs. -/
theorem process_message_short_frame_panics :
    process_message 0 (.binary []) = .error "index out of bounds" ∧
    process_message 0 (.binary [2]) = .error "index out of bounds" ∧
    process_message 0 (.binary (2 :: List.replicate 23 0)) = .error "index out of bounds" ∧
    process_message 0 (.binary [9]) = .ok (.cont, []) ∧
    process_message 0 (.binary (2 :: List.replicate 24 0)) =
      .ok (.cont, [.bestSolution 0 (List.replicate 16 0) (List.replicate 8 0)]) :=
  ⟨rfl, rfl, rfl, rfl, rfl⟩

/-- C5: the dispatch decision uses the computed cutoff when it is positive;
with a non-positive cutoff it dispatches nothing when a best solution
exists, and dispatches with the cutoff forced to 0 when none exists. -/
theorem dispatch_decision_spec (cutoff : Int) (hasSolution : Bool) :
    (0 < cutoff → dispatchDecision cutoff hasSolution = (true, cutoff)) ∧
    (cutoff ≤ 0 → hasSolution = true → dispatchDecision cutoff hasSolution = (false, 0)) ∧
    (cutoff ≤ 0 → hasSolution = false → dispatchDecision cutoff hasSolution = (true, 0)) := by
  refine ⟨fun h => ?_, fun h hs => ?_, fun h hs => ?_⟩
  · simp [dispatchDecision, not_le.mpr h]
  · simp [dispatchDecision, h, hs]
  · simp [dispatchDecision, h, hs]

/-- C5 witness: the three branches evaluated at cutoff 5 and -1. -/
theorem dispatch_decision_spec_witness :
    dispatchDecision 5 false = (true, 5) ∧
    dispatchDecision (-1) true = (false, 0) ∧
    dispatchDecision (-1) false = (true, 0) :=
  ⟨(dispatch_decision_spec 5 false).1 (by decide),
   (dispatch_decision_spec (-1) true).2.1 (by decide) rfl,
   (dispatch_decision_spec (-1) false).2.2 (by decide) rfl⟩

/-- C7 counterexample: the claim says a worker is removed from the ready
set only when the send of its assignment frame succeeds.  In the code the
send result is discarded (`let _ = sender.send(..)`), so with an attached
sink and a failing send the worker is removed anyway: from sockets `[0]`,
ready `[0]`, a dispatch to worker 0 whose send fails leaves the ready set
empty. -/
theorem dispatch_removal_cex :
    (stepRoster { sockets := [0], ready := [0] } (.dispatch 0 false)).ready = [] := by
  decide

/-- C7 amended: the dispatch loop removes the worker from the ready set
exactly when a sink is attached for it, regardless of whether the send of
the assignment frame succeeded; with no attached sink the state is
unchanged. -/
theorem dispatch_removal_amended (st : RosterState) (a : Nat) (sendOk : Bool) :
    (a ∈ st.sockets →
      stepRoster st (.dispatch a sendOk) = { st with ready := st.ready.erase a }) ∧
    (a ∉ st.sockets → stepRoster st (.dispatch a sendOk) = st) := by
  constructor <;> intro h <;> simp [stepRoster, h]

/-- C7 amended witness: worker 0 attached, send failing, ready set loses 0. -/
theorem dispatch_removal_amended_witness :
    stepRoster { sockets := [0], ready := [0] } (.dispatch 0 false) =
      { sockets := [0], ready := [] } :=
  (dispatch_removal_amended { sockets := [0], ready := [0] } 0 false).1 (by decide)

/-- C9: when all three send-and-confirm attempts fail, the submission loop
resets the nonce cursor to 0 and clears the best hash, and the proof cell
is left unchanged, whatever RPC outcomes the (unreached) poll would have
seen. -/
theorem submit_exhaust_reset {S : Type} (st : RoundState S)
    (poll : List (Option ProofSt)) :
    submitRound st [false, false, false] poll =
      some { proof := st.proof, nonce := 0, best := emptyBest S } := rfl

/-- C1 counterexample: the claim says the ping sweep's eviction of a failed
sink removes the address from both the socket map and the ready set, so
that no ready-set member ever lacks a live sink.  In the code
`ping_check_system` removes failed addresses from `sockets` only.  After
worker 0 connects, reports Ready, and fails a ping sweep, it is still in
the ready set but no longer in the socket map. -/
theorem roster_coherence_cex :
    0 ∈ (runRoster bootRoster [.connect 0, .readyMsg 0, .pingSweep [0]]).ready ∧
    0 ∉ (runRoster bootRoster [.connect 0, .readyMsg 0, .pingSweep [0]]).sockets := by
  decide

/-- C1 amended: from any state where the ready set is contained in the
socket map, every event other than a ping sweep preserves that
containment; the ping sweep removes failed addresses from the socket map
but leaves the ready set unchanged, and the exit of a connection's receive
loop removes the address from neither, so a ping-failure eviction of a
ready worker leaves a ready-set member without a live sink. -/
theorem roster_coherence_amended (st : RosterState)
    (hsub : ∀ a, a ∈ st.ready → a ∈ st.sockets) :
    (∀ e : REvent, (∀ f, e ≠ .pingSweep f) →
      ∀ a, a ∈ (stepRoster st e).ready → a ∈ (stepRoster st e).sockets) ∧
    (∀ f, (stepRoster st (.pingSweep f)).ready = st.ready) ∧
    (∀ a, stepRoster st (.disconnect a) = st) := by
  refine ⟨fun e he a ha => ?_, fun f => rfl, fun a => rfl⟩
  cases e with
  | connect b =>
      by_cases hb : b ∈ st.sockets
      · simpa [stepRoster, hb] using hsub a (by simpa [stepRoster, hb] using ha)
      · simp only [stepRoster, if_neg hb] at ha ⊢
        exact List.mem_cons_of_mem b (hsub a ha)
  | readyMsg b =>
      by_cases hb : b ∈ st.sockets
      · simp only [stepRoster, if_pos hb] at ha ⊢
        by_cases hr : b ∈ st.ready
        · exact hsub a (by simpa [hr] using ha)
        · rcases (by simpa [hr] using ha : a = b ∨ a ∈ st.ready) with rfl | h
          · exact hb
          · exact hsub a h
      · simp only [stepRoster, if_neg hb] at ha ⊢
        exact hsub a ha
  | dispatch b sendOk =>
      by_cases hb : b ∈ st.sockets
      · simp only [stepRoster, if_pos hb] at ha ⊢
        exact hsub a (List.mem_of_mem_erase ha)
      · simp only [stepRoster, if_neg hb] at ha ⊢
        exact hsub a ha
  | pingSweep f => exact absurd rfl (he f)
  | disconnect b => exact hsub a ha

/-- C1 amended witness: the amendment applied at the one-worker state with
a coherent roster. -/
theorem roster_coherence_amended_witness :
    (∀ a, a ∈ (RosterState.mk [0] [0]).ready → a ∈ (RosterState.mk [0] [0]).sockets) ∧
    ((∀ e : REvent, (∀ f, e ≠ .pingSweep f) →
      ∀ a, a ∈ (stepRoster (RosterState.mk [0] [0]) e).ready →
        a ∈ (stepRoster (RosterState.mk [0] [0]) e).sockets) ∧
    (∀ f, (stepRoster (RosterState.mk [0] [0]) (.pingSweep f)).ready =
      (RosterState.mk [0] [0]).ready) ∧
    (∀ a, stepRoster (RosterState.mk [0] [0]) (.disconnect a) = RosterState.mk [0] [0])) :=
  ⟨fun _ h => h, roster_coherence_amended (RosterState.mk [0] [0]) (fun _ h => h)⟩

/-- C4: the best-solution cell is replaced by the new solution and its
difficulty exactly when the solution validates against the current
challenge, its difficulty exceeds 3, and its difficulty strictly exceeds
the stored one; otherwise the cell is unchanged.  Consequently the stored
difficulty never decreases under an update, a difficulty-3 solution is
rejected, and a valid difficulty-4 solution beats any stored difficulty
below 4. -/
theorem best_update_spec {S C : Type} (validFn : S → C → Bool) (diffFn : S → Nat)
    (challenge : C) (sol : S) (b : BestHash S) :
    (validFn sol challenge = true ∧ 3 < diffFn sol ∧ b.difficulty < diffFn sol →
      applyBestSolution validFn diffFn challenge sol b =
        { solution := some sol, difficulty := diffFn sol }) ∧
    (¬(validFn sol challenge = true ∧ 3 < diffFn sol ∧ b.difficulty < diffFn sol) →
      applyBestSolution validFn diffFn challenge sol b = b) ∧
    b.difficulty ≤ (applyBestSolution validFn diffFn challenge sol b).difficulty ∧
    (diffFn sol = 3 → applyBestSolution validFn diffFn challenge sol b = b) ∧
    (validFn sol challenge = true → diffFn sol = 4 → b.difficulty < 4 →
      applyBestSolution validFn diffFn challenge sol b =
        { solution := some sol, difficulty := 4 }) := by
  unfold applyBestSolution
  refine ⟨fun ⟨hv, h3, hd⟩ => by simp [hv, h3, hd], fun hn => ?_, ?_, fun h3 => ?_,
    fun hv h4 hd => by simp [hv, h4, hd]⟩
  · by_cases hv : validFn sol challenge = true
    · by_cases h3 : 3 < diffFn sol
      · by_cases hd : b.difficulty < diffFn sol
        · exact absurd ⟨hv, h3, hd⟩ hn
        · simp [hv, h3, hd]
      · simp [hv, h3]
    · simp [hv]
  · by_cases hv : validFn sol challenge = true
    · by_cases h3 : 3 < diffFn sol
      · by_cases hd : b.difficulty < diffFn sol
        · simp [hv, h3, hd]
          exact le_of_lt hd
        · simp [hv, h3, hd]
      · simp [hv, h3]
    · simp [hv]
  · simp [h3]

/-- C4 witness: a valid difficulty-4 solution replaces the empty cell. -/
theorem best_update_spec_witness :
    applyBestSolution (fun (_ : Nat) (_ : Nat) => true) id 0 4 (emptyBest Nat) =
      { solution := some 4, difficulty := 4 } :=
  (best_update_spec (fun _ _ => true) id 0 4 (emptyBest Nat)).1 ⟨rfl, by decide, by decide⟩

/-- Consistency of a BestHash cell with the external difficulty function:
a stored solution has the stored difficulty, which exceeds 3; an empty
cell has difficulty 0. -/
def BestInv {S : Type} (diffFn : S → Nat) (b : BestHash S) : Prop :=
  (∀ s, b.solution = some s → b.difficulty = diffFn s ∧ 3 < b.difficulty) ∧
  (b.solution = none → b.difficulty = 0)

/-- C10: every reachable content of the BestHash cell (boot value, updates
by BestSolution events, resets by the submission loop) satisfies the
consistency invariant. -/
theorem best_inv_reachable {S C : Type} (validFn : S → C → Bool) (diffFn : S → Nat)
    (b : BestHash S) (h : BReach validFn diffFn b) : BestInv diffFn b := by
  induction h with
  | boot => exact ⟨fun s hs => by simp [emptyBest] at hs, fun _ => rfl⟩
  | update challenge sol b hb ih =>
      unfold applyBestSolution
      by_cases hv : validFn sol challenge = true
      · by_cases h3 : 3 < diffFn sol
        · by_cases hd : b.difficulty < diffFn sol
          · refine ⟨fun s hs => ?_, fun hs => ?_⟩
            · simp only [hv, if_true, h3, if_pos, hd] at hs ⊢
              simp only [Option.some.injEq] at hs
              simp [hs.symm, h3]
            · simp [hv, h3, hd] at hs
          · simpa [hv, h3, hd] using ih
        · simpa [hv, h3] using ih
      · simpa [hv] using ih
  | reset b hb ih => exact ⟨fun s hs => by simp [emptyBest] at hs, fun _ => rfl⟩

/-- C10 witness: the invariant at the boot value of the cell. -/
theorem best_inv_reachable_witness :
    BestInv (id : Nat → Nat) (emptyBest Nat) :=
  best_inv_reachable (fun (_ : Nat) (_ : Nat) => true) id (emptyBest Nat) BReach.boot

/-- C3: within a single round the dispatch loop's successive nonce-range
allocations, started at any cursor value whose round stays below the u64
wrap, are pairwise disjoint, consecutive (each range's end is the next
range's start), strictly increasing in start, and begin at the cursor; in
particular four allocations from cursor 0 yield the four 2-million ranges. -/
theorem nonce_ranges_disjoint (c n : Nat) (h : c + n * CHUNK < 2 ^ 64) :
    (∀ i j ri rj, i < j →
        (allocSeq c n).get? i = some ri → (allocSeq c n).get? j = some rj →
        ri.1 < rj.1 ∧ ri.2 ≤ rj.1 ∧
        ∀ x, ¬(ri.1 ≤ x ∧ x < ri.2 ∧ rj.1 ≤ x ∧ x < rj.2)) ∧
    (∀ i ri rnext, (allocSeq c n).get? i = some ri →
        (allocSeq c n).get? (i + 1) = some rnext → ri.2 = rnext.1) ∧
    (∀ i ri, (allocSeq c n).get? i = some ri → ri.2 = ri.1 + CHUNK) ∧
    (∀ ri, (allocSeq c n).get? 0 = some ri → ri.1 = c ∧ ri.2 = c + CHUNK) ∧
    allocSeq 0 4 = [(0, 2000000), (2000000, 4000000), (4000000, 6000000), (6000000, 8000000)] := by
  have hchunk : 0 < CHUNK := by decide
  refine ⟨fun i j ri rj hij hgi hgj => ?_, fun i ri rnext hgi hgn => ?_,
    fun i ri hgi => ?_, fun ri hg0 => ?_, rfl⟩
  · obtain ⟨hi, rfl⟩ := allocSeq_get c n i ri h hgi
    obtain ⟨hj, rfl⟩ := allocSeq_get c n j rj h hgj
    have h1 : c + (i + 1) * CHUNK ≤ c + j * CHUNK := by
      have := Nat.mul_le_mul_right CHUNK (by omega : i + 1 ≤ j)
      omega
    have h2 : c + i * CHUNK < c + (i + 1) * CHUNK := by
      have hexp : (i + 1) * CHUNK = i * CHUNK + CHUNK := by ring
      omega
    exact ⟨by omega, h1, fun x hx => by omega⟩
  · obtain ⟨hi, rfl⟩ := allocSeq_get c n i ri h hgi
    obtain ⟨hi1, rfl⟩ := allocSeq_get c n (i + 1) rnext h hgn
    rfl
  · obtain ⟨hi, rfl⟩ := allocSeq_get c n i ri h hgi
    have hexp : (i + 1) * CHUNK = i * CHUNK + CHUNK := by ring
    simp only []
    omega
  · obtain ⟨h0, rfl⟩ := allocSeq_get c n 0 ri h hg0
    constructor <;> simp

/-- C3 witness: four allocations from cursor 0. -/
theorem nonce_ranges_disjoint_witness :
    0 + 4 * CHUNK < 2 ^ 64 ∧
    allocSeq 0 4 = [(0, 2000000), (2000000, 4000000), (4000000, 6000000), (6000000, 8000000)] :=
  ⟨by decide, (nonce_ranges_disjoint 0 4 (by decide)).2.2.2.2⟩

/-- C6: an assignment frame built for a 32-byte challenge is exactly 57
bytes: tag 0x00 at offset 0, the challenge at offsets 1..33, the cutoff as
little-endian two's-complement i64 at offsets 33..41, the range start as
little-endian u64 at offsets 41..49 and the range end at offsets 49..57. -/
theorem assignment_frame_spec (challenge : List Nat) (cutoff : Int)
    (nonceStart nonceEnd : Nat) (h : challenge.length = 32) :
    (assignmentFrame challenge cutoff nonceStart nonceEnd).length = 57 ∧
    (assignmentFrame challenge cutoff nonceStart nonceEnd).get? 0 = some 0 ∧
    ((assignmentFrame challenge cutoff nonceStart nonceEnd).drop 1).take 32 = challenge ∧
    ((assignmentFrame challenge cutoff nonceStart nonceEnd).drop 33).take 8 =
      i64leBytes cutoff ∧
    ((assignmentFrame challenge cutoff nonceStart nonceEnd).drop 41).take 8 =
      u64leBytes nonceStart ∧
    (assignmentFrame challenge cutoff nonceStart nonceEnd).drop 49 = u64leBytes nonceEnd := by
  have hi64 : (i64leBytes cutoff).length = 8 := leBytes_length 8 _
  have hu1 : (u64leBytes nonceStart).length = 8 := leBytes_length 8 _
  have hu2 : (u64leBytes nonceEnd).length = 8 := leBytes_length 8 _
  have e1 : (assignmentFrame challenge cutoff nonceStart nonceEnd).drop 1 =
      challenge ++ (i64leBytes cutoff ++ (u64leBytes nonceStart ++ u64leBytes nonceEnd)) := by
    simp [assignmentFrame]
  have e33 : (assignmentFrame challenge cutoff nonceStart nonceEnd).drop 33 =
      i64leBytes cutoff ++ (u64leBytes nonceStart ++ u64leBytes nonceEnd) := by
    rw [show (33 : Nat) = 1 + 32 by rfl, ← List.drop_drop, e1, List.drop_left' h]
  have e41 : (assignmentFrame challenge cutoff nonceStart nonceEnd).drop 41 =
      u64leBytes nonceStart ++ u64leBytes nonceEnd := by
    rw [show (41 : Nat) = 33 + 8 by rfl, ← List.drop_drop, e33, List.drop_left' hi64]
  have e49 : (assignmentFrame challenge cutoff nonceStart nonceEnd).drop 49 =
      u64leBytes nonceEnd := by
    rw [show (49 : Nat) = 41 + 8 by rfl, ← List.drop_drop, e41, List.drop_left' hu1]
  refine ⟨?_, rfl, ?_, ?_, ?_, e49⟩
  · simp [assignmentFrame, h, hi64, hu1, hu2]
  · rw [e1, List.take_left' h]
  · rw [e33, List.take_left' hi64]
  · rw [e41, List.take_left' hu1]

/-- C6 witness: the frame for a concrete 32-byte challenge, cutoff 60 and
range `[0, 2000000)`. -/
theorem assignment_frame_spec_witness :
    (List.replicate 32 5).length = 32 ∧
    ((assignmentFrame (List.replicate 32 5) 60 0 2000000).length = 57 ∧
     (assignmentFrame (List.replicate 32 5) 60 0 2000000).get? 0 = some 0 ∧
     ((assignmentFrame (List.replicate 32 5) 60 0 2000000).drop 1).take 32 =
       List.replicate 32 5 ∧
     ((assignmentFrame (List.replicate 32 5) 60 0 2000000).drop 33).take 8 =
       i64leBytes 60 ∧
     ((assignmentFrame (List.replicate 32 5) 60 0 2000000).drop 41).take 8 =
       u64leBytes 0 ∧
     (assignmentFrame (List.replicate 32 5) 60 0 2000000).drop 49 = u64leBytes 2000000) :=
  ⟨by simp, assignment_frame_spec (List.replicate 32 5) 60 0 2000000 (by simp)⟩

/-- C8: when a send-and-confirm attempt succeeds and the post-success poll
completes, the polled proof differs from the one submitted against, and the
submission loop ends the round with the shared proof replaced by the polled
one, the nonce cursor reset to 0 and the best hash cleared — whether the
success came on the first, second or third attempt. -/
theorem submit_success_reset {S : Type} (st : RoundState S)
    (poll : List (Option ProofSt)) (loaded : ProofSt) (b2 b3 : Bool)
    (h : pollNewProof st.proof poll = some loaded) :
    loaded ≠ st.proof ∧
    submitRound st [true, b2, b3] poll =
      some { proof := loaded, nonce := 0, best := emptyBest S } ∧
    submitRound st [false, true, b3] poll =
      some { proof := loaded, nonce := 0, best := emptyBest S } ∧
    submitRound st [false, false, true] poll =
      some { proof := loaded, nonce := 0, best := emptyBest S } := by
  refine ⟨pollNewProof_ne _ _ _ h, ?_, ?_, ?_⟩ <;> simp [submitRound, submitAttempts, h]

/-- C8 witness: a first-attempt success whose poll sees an RPC failure,
then the unchanged proof, then a fresh proof. -/
theorem submit_success_reset_witness :
    pollNewProof (ProofSt.mk [1] 2)
      [none, some (ProofSt.mk [1] 2), some (ProofSt.mk [3] 4)] =
      some (ProofSt.mk [3] 4) ∧
    (ProofSt.mk [3] 4 ≠ ProofSt.mk [1] 2 ∧
     submitRound (RoundState.mk (ProofSt.mk [1] 2) 5 (BestHash.mk (some 7) 9))
        [true, false, false]
        [none, some (ProofSt.mk [1] 2), some (ProofSt.mk [3] 4)] =
       some (RoundState.mk (ProofSt.mk [3] 4) 0 (emptyBest Nat)) ∧
     submitRound (RoundState.mk (ProofSt.mk [1] 2) 5 (BestHash.mk (some 7) 9))
        [false, true, false]
        [none, some (ProofSt.mk [1] 2), some (ProofSt.mk [3] 4)] =
       some (RoundState.mk (ProofSt.mk [3] 4) 0 (emptyBest Nat)) ∧
     submitRound (RoundState.mk (ProofSt.mk [1] 2) 5 (BestHash.mk (some 7) 9))
        [false, false, true]
        [none, some (ProofSt.mk [1] 2), some (ProofSt.mk [3] 4)] =
       some (RoundState.mk (ProofSt.mk [3] 4) 0 (emptyBest Nat))) :=
  ⟨by decide,
   submit_success_reset (RoundState.mk (ProofSt.mk [1] 2) 5 (BestHash.mk (some 7) 9))
     [none, some (ProofSt.mk [1] 2), some (ProofSt.mk [3] 4)]
     (ProofSt.mk [3] 4) false false (by decide)⟩

end OreHq
